import Mathlib

/-!
Verification of the chat demo repository (chat_send.py, chat_receive.py).

Embedding conventions:
- Python strings are embedded as `List Char` (`Str`); `len` is `List.length`
  (code points), `str.strip()` is `pyStrip`, `str.lower()` is `pyLower`,
  substring containment (`in`) is `isSubstr`, `str.split(sep)` is
  `splitOnChar`.
- The chat file is embedded as a list of lines (`List Str`).  The sender
  only ever writes whole newline-terminated chunks, so each `f.write` is an
  append of the chunk split at newline characters; the receiver, which reads
  from `last_position` to the end of file and splits the new content on
  newlines, is embedded with `last_position` counted in lines.
- `json.dumps` / `json.loads` are external library calls; they are embedded
  as explicit function parameters `jd : MessageData → Str` (dump) and
  `jp : Str → Option MessageData` (parse), where `jp s = none` models a
  `json.JSONDecodeError` on `s`.  `MessageData` models the JSON object
  written by the sender; optional fields model `dict.get` returning `None`.
- Exceptions are embedded as `Option` results (`none` = raise), and Python
  truthiness of a message id (`if msg_id:`) as `id ≠ 0` on a present id.
-/

namespace ChatSpec

abbrev Str := List Char

/-- The whitespace characters stripped by Python `str.strip()`. -/
def isPySpace (c : Char) : Bool :=
  c == ' ' || c == '\t' || c == '\n' || c == '\r' || c == '\x0b' || c == '\x0c'

/-- Python `str.strip()`: remove leading and trailing whitespace. -/
def pyStrip (l : Str) : Str :=
  ((l.dropWhile isPySpace).reverse.dropWhile isPySpace).reverse

/-- Python `str.lower()` (ASCII case folding suffices for the code paths here). -/
def pyLower (l : Str) : Str :=
  l.map Char.toLower

/-- Python substring containment `needle in hay`. -/
def isSubstr (needle hay : Str) : Bool :=
  hay.tails.any (fun t => needle.isPrefixOf t)

/-- Python `str.split(sep)` with an explicit one-character separator. -/
def splitOnChar (sep : Char) : Str → List Str
  | [] => [[]]
  | c :: cs =>
    if c = sep then [] :: splitOnChar sep cs
    else
      match splitOnChar sep cs with
      | [] => [[c]]
      | piece :: rest => (c :: piece) :: rest

/-- The JSON object written by `chat_send.format_message` and read back by the
receiver with `dict.get`: fields `timestamp`, `username`, `message`,
`message_id`.  A missing field is `none`. -/
structure MessageData where
  timestamp : Option Str
  username : Option Str
  message : Option Str
  message_id : Option Int
deriving DecidableEq

/-! ## chat_send.py -/

/-- `BasicChatSender.generate_message_id`: the id is the current clock time in
milliseconds, `int(datetime.datetime.now().timestamp() * 1000)`.  The ambient
clock is passed in explicitly as `now_ms`. -/
def generate_message_id (now_ms : Int) : Int :=
  now_ms

/-- `BasicChatSender.format_message`: builds the message dictionary from the
session username, the formatted current timestamp `ts`, and the clock value
`now_ms` used by `generate_message_id`. -/
def format_message (username ts : Str) (now_ms : Int) (message_text : Str) : MessageData :=
  { timestamp := some ts
    username := some username
    message := some message_text
    message_id := some (generate_message_id now_ms) }

/-- The prohibited words list of `BasicChatSender.validate_message`. -/
def prohibited_words : List Str :=
  ["spam".data, "test123".data]

/-- `BasicChatSender.validate_message`: returns `(is_valid, error_message)`. -/
def validate_message (message : Str) : Bool × Str :=
  if pyStrip message = [] then
    (false, "Message cannot be empty".data)
  else if 500 < message.length then
    (false, "Message too long (max 500 characters)".data)
  else if prohibited_words.any (fun word => isSubstr word (pyLower message)) then
    (false, "Message contains prohibited content".data)
  else
    (true, [])

/-- The human-readable line written by `send_message`:
`[{timestamp}] {username}: {message}`. -/
def humanFormat (username ts message_text : Str) : Str :=
  "[".data ++ ts ++ "] ".data ++ username ++ ": ".data ++ message_text

/-- The tag prefixing the JSON line written by `send_message`. -/
def jsonTag : Str :=
  "JSON: ".data

/-- The separator line `"-" * 50` written by `send_message`. -/
def separatorLine : Str :=
  List.replicate 50 '-'

/-- The lines appended to the chat file by one successful `send_message` call:
the human-readable chunk, the `JSON: `-tagged dump, and the separator, each
split at newline characters exactly as a reader of the file would see them. -/
def sentLines (jd : MessageData → Str) (username ts : Str) (now_ms : Int)
    (message_text : Str) : List Str :=
  splitOnChar '\n' (humanFormat username ts message_text) ++
    splitOnChar '\n' (jsonTag ++ jd (format_message username ts now_ms message_text)) ++
    [separatorLine]

/-- `BasicChatSender.send_message`: validates, formats, and appends to the chat
file; returns `True` on success and `False` when validation fails.  `jd` is
the embedded `json.dumps`. -/
def send_message (jd : MessageData → Str) (username ts : Str) (now_ms : Int)
    (message_text : Str) (file : List Str) : Bool × List Str :=
  if (validate_message message_text).1 = false then
    (false, file)
  else
    (true, file ++ sentLines jd username ts now_ms message_text)

/-- The line written by `BasicChatSender.ensure_chat_file_exists` when it
creates a fresh chat file. -/
def initialChatFile : List Str :=
  ["=== Chat Session Started ===".data]

/-- A sequence of `send_message` calls, each with its clock value and message
text; returns the final file and, for the accepted (successfully validated)
messages, in order, the identifier `generate_message_id` assigned to each. -/
def runSends (jd : MessageData → Str) (username ts : Str) :
    List (Int × Str) → List Str → List Str × List Int
  | [], file => (file, [])
  | (t, b) :: rest, file =>
    let r := send_message jd username ts t b file
    let rr := runSends jd username ts rest r.2
    (rr.1, if r.1 then generate_message_id t :: rr.2 else rr.2)

/-! ## chat_receive.py -/

/-- `BasicChatReceiver` state: `last_position` (file read cursor, counted in
lines) and `displayed_messages` (the set of message ids already displayed,
kept as a list). -/
structure RecvState where
  last_position : Nat
  displayed_messages : List Int
deriving DecidableEq

/-- `BasicChatReceiver.__init__`: cursor 0, no displayed messages. -/
def initReceiver : RecvState :=
  { last_position := 0, displayed_messages := [] }

/-- The per-line loop of `read_new_messages`: strip the line, keep it only if
it carries the `JSON: ` tag, parse the remainder with `jp` (skipping on
decode error), and keep the message only if its id is truthy and unseen,
recording the id.  Returns the collected messages and the updated
`displayed_messages`. -/
def processLines (jp : Str → Option MessageData) :
    List Str → List Int → List MessageData × List Int
  | [], disp => ([], disp)
  | line :: rest, disp =>
    let lt := pyStrip line
    if jsonTag.isPrefixOf lt then
      match jp (lt.drop 6) with
      | none => processLines jp rest disp
      | some md =>
        match md.message_id with
        | some id =>
          if id ≠ 0 ∧ id ∉ disp then
            let res := processLines jp rest (id :: disp)
            (md :: res.1, res.2)
          else
            processLines jp rest disp
        | none => processLines jp rest disp
    else
      processLines jp rest disp

/-- `BasicChatReceiver.read_new_messages`: read the lines after
`last_position`, advance `last_position` to the end of the file, and if the
new content is not blank, collect the new messages with the per-line loop. -/
def read_new_messages (jp : Str → Option MessageData) (file : List Str)
    (st : RecvState) : List MessageData × RecvState :=
  let new_lines := file.drop st.last_position
  if new_lines.any (fun l => !(pyStrip l).isEmpty) then
    let res := processLines jp new_lines st.displayed_messages
    (res.1, { last_position := file.length, displayed_messages := res.2 })
  else
    ([], { last_position := file.length, displayed_messages := st.displayed_messages })

/-- `BasicChatReceiver.format_message_display`: fields default via `dict.get`;
the displayed time is `timestamp.split(' ')[1]`, which raises `IndexError`
(embedded as `none`) when the split has no second element. -/
def format_message_display (message_data : MessageData) : Option Str :=
  let timestamp := message_data.timestamp.getD "Unknown time".data
  let username := message_data.username.getD "Unknown user".data
  let message_text := message_data.message.getD []
  match (splitOnChar ' ' timestamp)[1]? with
  | none => none
  | some time_part =>
    some ("💬 [".data ++ time_part ++ "] ".data ++ username ++ ": ".data ++ message_text)

/-- The JSON-extraction loop of `show_existing_messages`: every line carrying
the `JSON: ` tag whose remainder parses contributes a message, in file
order. -/
def extractMessages (jp : Str → Option MessageData) (file : List Str) : List MessageData :=
  file.filterMap (fun line =>
    let lt := pyStrip line
    if jsonTag.isPrefixOf lt then jp (lt.drop 6) else none)

/-- The id-recording step of `show_existing_messages`: `msg_id` is added to
`displayed_messages` when it is present and truthy. -/
def addDisplayedId (disp : List Int) (md : MessageData) : List Int :=
  match md.message_id with
  | some id => if id ≠ 0 then id :: disp else disp
  | none => disp

/-- The display loop of `show_existing_messages`: each message is formatted
(a formatting `IndexError` aborts the whole loop before recording that
message) and its id, when truthy, is added to `displayed_messages`.  Returns
the messages displayed, the updated id list, and whether the loop finished
without raising. -/
def displayLoop : List MessageData → List Int → List MessageData × List Int × Bool
  | [], disp => ([], disp, true)
  | md :: rest, disp =>
    match format_message_display md with
    | none => ([], disp, false)
    | some _ =>
      let res := displayLoop rest (addDisplayedId disp md)
      (md :: res.1, res.2)

/-- `BasicChatReceiver.show_existing_messages`: extract all JSON messages,
display the last `count` of them (Python slice `messages[-count:]`), record
their ids, and move `last_position` to the end of the file — unless there are
no messages, or the display loop raises, in which case `last_position` is
left unchanged. -/
def show_existing_messages (jp : Str → Option MessageData) (count : Nat)
    (file : List Str) (st : RecvState) : List MessageData × RecvState :=
  let messages := extractMessages jp file
  if messages = [] then
    ([], st)
  else
    let recent := if count = 0 then messages else messages.drop (messages.length - count)
    let res := displayLoop recent st.displayed_messages
    if res.2.2 then
      (res.1, { last_position := file.length, displayed_messages := res.2.1 })
    else
      (res.1, { last_position := st.last_position, displayed_messages := res.2.1 })

/-- One receiver-side operation: a `read_new_messages` poll, or a
`show_existing_messages` call with its `count` argument. -/
inductive ReceiverOp where
  | pollNew : ReceiverOp
  | showExisting : Nat → ReceiverOp
deriving DecidableEq

/-- The receiver state after one operation against the current file. -/
def applyOp (jp : Str → Option MessageData) (op : ReceiverOp) (file : List Str)
    (st : RecvState) : RecvState :=
  match op with
  | .pollNew => (read_new_messages jp file st).2
  | .showExisting count => (show_existing_messages jp count file st).2

/-- The batch a poll returns to the consumer at one operation; a
`show_existing_messages` step returns no poll batch. -/
def pollOutput (jp : Str → Option MessageData) (op : ReceiverOp) (file : List Str)
    (st : RecvState) : List MessageData :=
  match op with
  | .pollNew => (read_new_messages jp file st).1
  | .showExisting _ => []

/-- Run a sequence of receiver operations, each against the chat file current
at that step, collecting the poll batches. -/
def runTrace (jp : Str → Option MessageData) :
    List (ReceiverOp × List Str) → RecvState → List (List MessageData)
  | [], _ => []
  | (op, file) :: rest, st =>
    pollOutput jp op file st :: runTrace jp rest (applyOp jp op file st)

/-- The message ids carried by a batch of messages. -/
def msgIds (batch : List MessageData) : List Int :=
  batch.filterMap MessageData.message_id

/-- The number of lines of the chat file that the receiver recognises as JSON
message records (stripped line carrying the `JSON: ` tag). -/
def jsonLineCount (file : List Str) : Nat :=
  (file.filter (fun line => jsonTag.isPrefixOf (pyStrip line))).length

/-- Along a sequence of receiver operations, every step neither decreases the
cursor nor moves it past the end of the file current at that step. -/
def cursorBounds (jp : Str → Option MessageData) :
    RecvState → List (ReceiverOp × List Str) → Prop
  | _, [] => True
  | st, (op, file) :: rest =>
    (st.last_position ≤ (applyOp jp op file st).last_position ∧
      (applyOp jp op file st).last_position ≤ file.length) ∧
    cursorBounds jp (applyOp jp op file st) rest

/-- The lines appended by a sequence of successful sends, in order. -/
def sentBlocks (jd : MessageData → Str) (username ts : Str) : List (Int × Str) → List Str
  | [] => []
  | (t, b) :: rest => sentLines jd username ts t b ++ sentBlocks jd username ts rest

/-- The property claimed of assigned identifiers: strictly increasing with no
gaps, i.e. each identifier is the predecessor plus one. -/
def noGapIncreasing : List Int → Bool
  | [] => true
  | [_] => true
  | a :: b :: rest => (b == a + 1) && noGapIncreasing (b :: rest)

/-- Modelled from the spec: the rendering form `[time] author: body` with
time, author and body taken from the message fields (with the same `dict.get`
defaults the code uses).  This follows the words of the spec, for comparison
with `format_message_display`, which is translated from the code. -/
def specRender (md : MessageData) : Str :=
  "[".data ++ md.timestamp.getD "Unknown time".data ++ "] ".data ++
    md.username.getD "Unknown user".data ++ ": ".data ++ md.message.getD []

/-! ## Concrete instances used by counterexamples and witnesses -/

/-- A sample username. -/
def uA : Str := "alice".data

/-- A sample formatted timestamp, as `strftime("%Y-%m-%d %H:%M:%S")` yields. -/
def tsA : Str := "2024-01-01 10:00:00".data

/-- A constant JSON dump, sufficient where the dumped text is irrelevant. -/
def jdConst : MessageData → Str := fun _ => "<m>".data

/-- A parsed message carrying no `message_id` field. -/
def mdNoId : MessageData :=
  { timestamp := some tsA, username := some "carol".data,
    message := some "hello".data, message_id := none }

/-- A parse function mapping the payload `noid` to `mdNoId`. -/
def jpNoId : Str → Option MessageData :=
  fun s => if s = "noid".data then some mdNoId else none

/-- A one-line chat file whose single record parses to `mdNoId`. -/
def fileNoId : List Str := ["JSON: noid".data]

/-- A parsed message with the truthy id 42. -/
def mdOk : MessageData :=
  { timestamp := some tsA, username := some "bob".data,
    message := some "hey".data, message_id := some 42 }

/-- A parse function mapping the payload `ok` to `mdOk`. -/
def jpOk : Str → Option MessageData :=
  fun s => if s = "ok".data then some mdOk else none

/-- A one-line chat file whose single record parses to `mdOk`. -/
def fileOk : List Str := ["JSON: ok".data]

/-- Message formatted at clock 1000 ms with text `hi`. -/
def md61 : MessageData := format_message uA tsA 1000 "hi".data

/-- Message formatted at clock 1000 ms with text `yo`: same id as `md61`. -/
def md62 : MessageData := format_message uA tsA 1000 "yo".data

/-- Message formatted at clock 2000 ms with text `yo`. -/
def md63 : MessageData := format_message uA tsA 2000 "yo".data

/-- A concrete injective JSON dump for the three sample messages. -/
def jd6 : MessageData → Str := fun md =>
  if md = md61 then "<a>".data
  else if md = md62 then "<b>".data
  else if md = md63 then "<c>".data
  else "<d>".data

/-- The concrete parse function inverting `jd6`. -/
def jp6 : Str → Option MessageData := fun s =>
  if s = "<a>".data then some md61
  else if s = "<b>".data then some md62
  else if s = "<c>".data then some md63
  else none

/-- A well-formed message whose timestamp contains no space character. -/
def mdNoSpace : MessageData :=
  { timestamp := some "2024-01-01T10:30:00".data, username := some uA,
    message := some "hi".data, message_id := some 7 }

/-! ## Helper lemmas about the string model -/

lemma splitOnChar_ne_nil (sep : Char) (l : Str) : splitOnChar sep l ≠ [] := by
  induction l with
  | nil => simp [splitOnChar]
  | cons c cs ih =>
    simp only [splitOnChar]
    split
    · simp
    · split
      · simp
      · simp

lemma splitOnChar_of_not_mem (sep : Char) (l : Str) (h : sep ∉ l) :
    splitOnChar sep l = [l] := by
  induction l with
  | nil => rfl
  | cons c cs ih =>
    simp only [List.mem_cons, not_or] at h
    simp only [splitOnChar]
    rw [if_neg (by exact fun hc => h.1 hc.symm)]
    rw [ih h.2]

lemma splitOnChar_length_ge_two (sep : Char) (l : Str) (h : sep ∈ l) :
    2 ≤ (splitOnChar sep l).length := by
  induction l with
  | nil => simp at h
  | cons c cs ih =>
    simp only [splitOnChar]
    by_cases hc : c = sep
    · rw [if_pos hc]
      have hne := splitOnChar_ne_nil sep cs
      have h1 : 1 ≤ (splitOnChar sep cs).length := by
        cases hsp : splitOnChar sep cs with
        | nil => exact absurd hsp hne
        | cons a b => simp
      simp only [List.length_cons]
      omega
    · rw [if_neg hc]
      have hmem : sep ∈ cs := by
        rcases List.mem_cons.mp h with h1 | h2
        · exact absurd h1.symm hc
        · exact h2
      have hlen := ih hmem
      cases hsp : splitOnChar sep cs with
      | nil => exact absurd hsp (splitOnChar_ne_nil sep cs)
      | cons a b =>
        rw [hsp] at hlen
        simp only [List.length_cons] at hlen ⊢
        omega

lemma dropWhile_append_singleton (p : Char → Bool) (xs : Str) (c : Char)
    (hc : p c = false) :
    (xs ++ [c]).dropWhile p = xs.dropWhile p ++ [c] := by
  induction xs with
  | nil => simp [List.dropWhile, hc]
  | cons x l ih =>
    by_cases hx : p x
    · simp [List.dropWhile, hx, ih]
    · simp [List.dropWhile, hx]

lemma pyStrip_cons_of_nonspace (c : Char) (l : Str) (hc : isPySpace c = false) :
    pyStrip (c :: l) = c :: (l.reverse.dropWhile isPySpace).reverse := by
  unfold pyStrip
  rw [List.dropWhile_cons_of_neg (by simp [hc])]
  rw [List.reverse_cons]
  rw [dropWhile_append_singleton _ _ _ hc]
  simp

lemma isPrefixOf_append_self (l t : Str) : List.isPrefixOf l (l ++ t) = true := by
  induction l with
  | nil => simp [List.isPrefixOf]
  | cons c cs ih => simp [List.isPrefixOf, ih]

lemma isPrefixOf_cons_ne (a b : Char) (l1 l2 : Str) (h : (a == b) = false) :
    List.isPrefixOf (a :: l1) (b :: l2) = false := by
  simp [List.isPrefixOf, h]

lemma jsonTag_eq : jsonTag = 'J' :: "SON: ".data := rfl

lemma jsonTag_not_prefix_nil : jsonTag.isPrefixOf ([] : Str) = false := by decide

lemma humanFormat_head (u ts b : Str) :
    humanFormat u ts b = '[' :: (ts ++ "] ".data ++ u ++ ": ".data ++ b) := rfl

lemma humanFormat_not_tag (u ts b : Str) :
    jsonTag.isPrefixOf (pyStrip (humanFormat u ts b)) = false := by
  rw [humanFormat_head, pyStrip_cons_of_nonspace _ _ (by decide), jsonTag_eq]
  exact isPrefixOf_cons_ne _ _ _ _ (by decide)

lemma separator_not_tag : jsonTag.isPrefixOf (pyStrip separatorLine) = false := by decide

lemma newline_not_mem_humanFormat (u ts b : Str) (hu : '\n' ∉ u) (hts : '\n' ∉ ts)
    (hb : '\n' ∉ b) : '\n' ∉ humanFormat u ts b := by
  intro hmem
  rw [humanFormat_head] at hmem
  rcases List.mem_cons.mp hmem with h | h
  · exact absurd h (by decide)
  rcases List.mem_append.mp h with h | h
  case inr => exact hb h
  rcases List.mem_append.mp h with h | h
  case inr => exact absurd h (by decide)
  rcases List.mem_append.mp h with h | h
  case inr => exact hu h
  rcases List.mem_append.mp h with h | h
  · exact hts h
  · exact absurd h (by decide)

lemma jsonTag_drop (s : Str) : (jsonTag ++ s).drop 6 = s := by
  have h6 : jsonTag.length = 6 := rfl
  rw [← h6, List.drop_left]

/-! ## Helper lemmas about `processLines` -/

lemma processLines_cons_skip (jp : Str → Option MessageData) (line : Str)
    (rest : List Str) (disp : List Int)
    (h : jsonTag.isPrefixOf (pyStrip line) = false) :
    processLines jp (line :: rest) disp = processLines jp rest disp := by
  simp [processLines, h]

lemma processLines_cons_none (jp : Str → Option MessageData) (line : Str)
    (rest : List Str) (disp : List Int)
    (htag : jsonTag.isPrefixOf (pyStrip line) = true)
    (hjp : jp ((pyStrip line).drop 6) = none) :
    processLines jp (line :: rest) disp = processLines jp rest disp := by
  simp [processLines, htag, hjp]

lemma processLines_cons_noid (jp : Str → Option MessageData) (line : Str)
    (rest : List Str) (disp : List Int) (md : MessageData)
    (htag : jsonTag.isPrefixOf (pyStrip line) = true)
    (hjp : jp ((pyStrip line).drop 6) = some md)
    (hid : md.message_id = none) :
    processLines jp (line :: rest) disp = processLines jp rest disp := by
  simp [processLines, htag, hjp, hid]

lemma processLines_cons_stale (jp : Str → Option MessageData) (line : Str)
    (rest : List Str) (disp : List Int) (md : MessageData) (id : Int)
    (htag : jsonTag.isPrefixOf (pyStrip line) = true)
    (hjp : jp ((pyStrip line).drop 6) = some md)
    (hid : md.message_id = some id)
    (hstale : ¬ (id ≠ 0 ∧ id ∉ disp)) :
    processLines jp (line :: rest) disp = processLines jp rest disp := by
  simp only [processLines, htag, if_true, hjp, hid]
  rw [if_neg hstale]

lemma processLines_cons_fresh (jp : Str → Option MessageData) (line : Str)
    (rest : List Str) (disp : List Int) (md : MessageData) (id : Int)
    (htag : jsonTag.isPrefixOf (pyStrip line) = true)
    (hjp : jp ((pyStrip line).drop 6) = some md)
    (hid : md.message_id = some id) (hz : id ≠ 0) (hnew : id ∉ disp) :
    processLines jp (line :: rest) disp =
      (md :: (processLines jp rest (id :: disp)).1,
        (processLines jp rest (id :: disp)).2) := by
  simp only [processLines, htag, if_true, hjp, hid]
  rw [if_pos ⟨hz, hnew⟩]

lemma processLines_append_skip (jp : Str → Option MessageData) (l1 l2 : List Str)
    (disp : List Int)
    (h : ∀ l ∈ l1, jsonTag.isPrefixOf (pyStrip l) = false) :
    processLines jp (l1 ++ l2) disp = processLines jp l2 disp := by
  induction l1 with
  | nil => simp
  | cons line rest ih =>
    rw [List.cons_append, processLines_cons_skip jp line _ disp (h line (List.mem_cons_self line rest))]
    exact ih (fun l hl => h l (List.mem_cons_of_mem _ hl))

lemma processLines_blank (jp : Str → Option MessageData) (lines : List Str)
    (disp : List Int) (h : ∀ l ∈ lines, pyStrip l = []) :
    processLines jp lines disp = ([], disp) := by
  induction lines with
  | nil => rfl
  | cons line rest ih =>
    rw [processLines_cons_skip jp line rest disp
      (by rw [h line (List.mem_cons_self line rest)]; exact jsonTag_not_prefix_nil)]
    exact ih (fun l hl => h l (List.mem_cons_of_mem _ hl))

lemma read_new_messages_eq (jp : Str → Option MessageData) (file : List Str)
    (st : RecvState) :
    read_new_messages jp file st =
      ((processLines jp (file.drop st.last_position) st.displayed_messages).1,
        { last_position := file.length,
          displayed_messages :=
            (processLines jp (file.drop st.last_position) st.displayed_messages).2 }) := by
  simp only [read_new_messages]
  split
  · rfl
  · next h =>
    have hall : ∀ l ∈ file.drop st.last_position, pyStrip l = [] := by
      intro l hl
      by_contra hne
      exact h (List.any_eq_true.mpr ⟨l, hl, by simpa [List.isEmpty_iff] using hne⟩)
    rw [processLines_blank jp _ _ hall]

lemma processLines_disp_mono (jp : Str → Option MessageData) (lines : List Str) :
    ∀ (disp : List Int) (x : Int), x ∈ disp → x ∈ (processLines jp lines disp).2 := by
  induction lines with
  | nil => intro disp x hx; exact hx
  | cons line rest ih =>
    intro disp x hx
    by_cases htag : jsonTag.isPrefixOf (pyStrip line) = true
    · cases hjp : jp ((pyStrip line).drop 6) with
      | none =>
        rw [processLines_cons_none jp line rest disp htag hjp]
        exact ih disp x hx
      | some md =>
        cases hid : md.message_id with
        | none =>
          rw [processLines_cons_noid jp line rest disp md htag hjp hid]
          exact ih disp x hx
        | some id =>
          by_cases hcond : id ≠ 0 ∧ id ∉ disp
          · rw [processLines_cons_fresh jp line rest disp md id htag hjp hid hcond.1 hcond.2]
            exact ih (id :: disp) x (List.mem_cons_of_mem id hx)
          · rw [processLines_cons_stale jp line rest disp md id htag hjp hid hcond]
            exact ih disp x hx
    · rw [processLines_cons_skip jp line rest disp (Bool.eq_false_iff.mpr htag)]
      exact ih disp x hx

lemma processLines_mem_id (jp : Str → Option MessageData) (lines : List Str) :
    ∀ (disp : List Int) (md : MessageData), md ∈ (processLines jp lines disp).1 →
      ∃ id, md.message_id = some id ∧ id ≠ 0 ∧ id ∉ disp ∧
        id ∈ (processLines jp lines disp).2 := by
  induction lines with
  | nil => intro disp md hmd; simp [processLines] at hmd
  | cons line rest ih =>
    intro disp md hmd
    by_cases htag : jsonTag.isPrefixOf (pyStrip line) = true
    · cases hjp : jp ((pyStrip line).drop 6) with
      | none =>
        rw [processLines_cons_none jp line rest disp htag hjp] at hmd ⊢
        exact ih disp md hmd
      | some md0 =>
        cases hid : md0.message_id with
        | none =>
          rw [processLines_cons_noid jp line rest disp md0 htag hjp hid] at hmd ⊢
          exact ih disp md hmd
        | some id0 =>
          by_cases hcond : id0 ≠ 0 ∧ id0 ∉ disp
          · rw [processLines_cons_fresh jp line rest disp md0 id0 htag hjp hid
              hcond.1 hcond.2] at hmd ⊢
            rcases List.mem_cons.mp hmd with rfl | hmd
            · exact ⟨id0, hid, hcond.1, hcond.2,
                processLines_disp_mono jp rest (id0 :: disp) id0
                  (List.mem_cons_self id0 disp)⟩
            · obtain ⟨id, h1, h2, h3, h4⟩ := ih (id0 :: disp) md hmd
              exact ⟨id, h1, h2, fun hmem => h3 (List.mem_cons_of_mem id0 hmem), h4⟩
          · rw [processLines_cons_stale jp line rest disp md0 id0 htag hjp hid hcond] at hmd ⊢
            exact ih disp md hmd
    · rw [processLines_cons_skip jp line rest disp (Bool.eq_false_iff.mpr htag)] at hmd ⊢
      exact ih disp md hmd

lemma processLines_mem_good (jp : Str → Option MessageData) (lines : List Str) :
    ∀ (disp : List Int) (md : MessageData), md ∈ (processLines jp lines disp).1 →
      ∃ l ∈ lines, jsonTag.isPrefixOf (pyStrip l) = true ∧
        jp ((pyStrip l).drop 6) = some md := by
  induction lines with
  | nil => intro disp md hmd; simp [processLines] at hmd
  | cons line rest ih =>
    intro disp md hmd
    by_cases htag : jsonTag.isPrefixOf (pyStrip line) = true
    · cases hjp : jp ((pyStrip line).drop 6) with
      | none =>
        rw [processLines_cons_none jp line rest disp htag hjp] at hmd
        obtain ⟨l, hl, h⟩ := ih disp md hmd
        exact ⟨l, List.mem_cons_of_mem line hl, h⟩
      | some md0 =>
        cases hid : md0.message_id with
        | none =>
          rw [processLines_cons_noid jp line rest disp md0 htag hjp hid] at hmd
          obtain ⟨l, hl, h⟩ := ih disp md hmd
          exact ⟨l, List.mem_cons_of_mem line hl, h⟩
        | some id0 =>
          by_cases hcond : id0 ≠ 0 ∧ id0 ∉ disp
          · rw [processLines_cons_fresh jp line rest disp md0 id0 htag hjp hid
              hcond.1 hcond.2] at hmd
            rcases List.mem_cons.mp hmd with rfl | hmd
            · exact ⟨line, List.mem_cons_self line rest, htag, hjp⟩
            · obtain ⟨l, hl, h⟩ := ih (id0 :: disp) md hmd
              exact ⟨l, List.mem_cons_of_mem line hl, h⟩
          · rw [processLines_cons_stale jp line rest disp md0 id0 htag hjp hid hcond] at hmd
            obtain ⟨l, hl, h⟩ := ih disp md hmd
            exact ⟨l, List.mem_cons_of_mem line hl, h⟩
    · rw [processLines_cons_skip jp line rest disp (Bool.eq_false_iff.mpr htag)] at hmd
      obtain ⟨l, hl, h⟩ := ih disp md hmd
      exact ⟨l, List.mem_cons_of_mem line hl, h⟩

/-! ## Helper lemmas about the display path -/

lemma mem_addDisplayedId (disp : List Int) (md : MessageData) (x : Int)
    (hx : x ∈ disp) : x ∈ addDisplayedId disp md := by
  cases hid : md.message_id with
  | none => simpa [addDisplayedId, hid] using hx
  | some id =>
    simp only [addDisplayedId, hid]
    by_cases hz : id ≠ 0
    · rw [if_pos hz]
      exact List.mem_cons_of_mem id hx
    · rw [if_neg hz]
      exact hx

lemma displayLoop_cons_abort (md : MessageData) (rest : List MessageData)
    (disp : List Int) (h : format_message_display md = none) :
    displayLoop (md :: rest) disp = ([], disp, false) := by
  simp [displayLoop, h]

lemma displayLoop_cons_ok (md : MessageData) (rest : List MessageData)
    (disp : List Int) (s : Str) (h : format_message_display md = some s) :
    displayLoop (md :: rest) disp =
      (md :: (displayLoop rest (addDisplayedId disp md)).1,
        (displayLoop rest (addDisplayedId disp md)).2) := by
  simp [displayLoop, h]

lemma displayLoop_disp_mono (msgs : List MessageData) :
    ∀ (disp : List Int) (x : Int), x ∈ disp → x ∈ (displayLoop msgs disp).2.1 := by
  induction msgs with
  | nil => intro disp x hx; exact hx
  | cons md rest ih =>
    intro disp x hx
    cases hfmt : format_message_display md with
    | none =>
      rw [displayLoop_cons_abort md rest disp hfmt]
      exact hx
    | some s =>
      rw [displayLoop_cons_ok md rest disp s hfmt]
      exact ih (addDisplayedId disp md) x (mem_addDisplayedId disp md x hx)

lemma displayLoop_shown_sub (msgs : List MessageData) :
    ∀ (disp : List Int) (md : MessageData), md ∈ (displayLoop msgs disp).1 → md ∈ msgs := by
  induction msgs with
  | nil => intro disp md hmd; simp [displayLoop] at hmd
  | cons md0 rest ih =>
    intro disp md hmd
    cases hfmt : format_message_display md0 with
    | none =>
      rw [displayLoop_cons_abort md0 rest disp hfmt] at hmd
      simp at hmd
    | some s =>
      rw [displayLoop_cons_ok md0 rest disp s hfmt] at hmd
      rcases List.mem_cons.mp hmd with rfl | hmd
      · exact List.mem_cons_self md rest
      · exact List.mem_cons_of_mem md0 (ih _ md hmd)

lemma extractMessages_mem (jp : Str → Option MessageData) (file : List Str)
    (md : MessageData) (h : md ∈ extractMessages jp file) :
    ∃ l ∈ file, jsonTag.isPrefixOf (pyStrip l) = true ∧
      jp ((pyStrip l).drop 6) = some md := by
  obtain ⟨l, hl, heq⟩ := List.mem_filterMap.mp h
  refine ⟨l, hl, ?_⟩
  by_cases htag : jsonTag.isPrefixOf (pyStrip l) = true
  · rw [if_pos htag] at heq
    exact ⟨htag, heq⟩
  · rw [if_neg htag] at heq
    exact absurd heq (by simp)

lemma show_existing_disp_mono (jp : Str → Option MessageData) (count : Nat)
    (file : List Str) (st : RecvState) (x : Int) (hx : x ∈ st.displayed_messages) :
    x ∈ (show_existing_messages jp count file st).2.displayed_messages := by
  simp only [show_existing_messages]
  split
  · exact hx
  · split <;> split <;> exact displayLoop_disp_mono _ _ x hx

lemma show_existing_mem (jp : Str → Option MessageData) (count : Nat)
    (file : List Str) (st : RecvState) (md : MessageData)
    (h : md ∈ (show_existing_messages jp count file st).1) :
    md ∈ extractMessages jp file := by
  simp only [show_existing_messages] at h
  split at h
  · simp at h
  · split at h
    · split at h
      · exact displayLoop_shown_sub _ _ md h
      · exact displayLoop_shown_sub _ _ md h
    · split at h
      · exact List.drop_subset _ _ (displayLoop_shown_sub _ _ md h)
      · exact List.drop_subset _ _ (displayLoop_shown_sub _ _ md h)

lemma show_existing_pos (jp : Str → Option MessageData) (count : Nat)
    (file : List Str) (st : RecvState) :
    (show_existing_messages jp count file st).2.last_position = st.last_position ∨
      (show_existing_messages jp count file st).2.last_position = file.length := by
  simp only [show_existing_messages]
  split
  · exact Or.inl rfl
  · split <;> split
    · exact Or.inr rfl
    · exact Or.inl rfl
    · exact Or.inr rfl
    · exact Or.inl rfl

/-! ## Helper lemmas about the sender -/

lemma send_message_valid (jd : MessageData → Str) (u ts : Str) (t : Int) (b : Str)
    (file : List Str) (hv : (validate_message b).1 = true) :
    send_message jd u ts t b file = (true, file ++ sentLines jd u ts t b) := by
  unfold send_message
  rw [if_neg (by rw [hv]; simp)]

lemma send_message_invalid (jd : MessageData → Str) (u ts : Str) (t : Int) (b : Str)
    (file : List Str) (hv : (validate_message b).1 = false) :
    send_message jd u ts t b file = (false, file) := by
  unfold send_message
  rw [if_pos hv]

lemma runSends_ids (jd : MessageData → Str) (u ts : Str) (sends : List (Int × Str)) :
    ∀ file, (runSends jd u ts sends file).2 =
      sends.filterMap (fun p =>
        if (validate_message p.2).1 = true then some (generate_message_id p.1) else none) := by
  induction sends with
  | nil => intro file; rfl
  | cons p rest ih =>
    intro file
    obtain ⟨t, b⟩ := p
    cases hv : (validate_message b).1 with
    | true =>
      simp only [runSends, send_message_valid jd u ts t b file hv, List.filterMap_cons, hv,
        if_true, ih]
    | false =>
      simp only [runSends, send_message_invalid jd u ts t b file hv, List.filterMap_cons, hv,
        ih]
      simp

lemma runSends_file (jd : MessageData → Str) (u ts : Str) (sends : List (Int × Str))
    (hv : ∀ p ∈ sends, (validate_message p.2).1 = true) :
    ∀ file, (runSends jd u ts sends file).1 = file ++ sentBlocks jd u ts sends := by
  induction sends with
  | nil => intro file; simp [runSends, sentBlocks]
  | cons p rest ih =>
    intro file
    obtain ⟨t, b⟩ := p
    have hvb : (validate_message b).1 = true := hv (t, b) (List.mem_cons_self _ _)
    simp only [runSends, send_message_valid jd u ts t b file hvb]
    rw [ih (fun q hq => hv q (List.mem_cons_of_mem _ hq)) _]
    simp [sentBlocks, List.append_assoc]

lemma sentLines_eq (jd : MessageData → Str) (u ts : Str) (t : Int) (b : Str)
    (hu : '\n' ∉ u) (hts : '\n' ∉ ts) (hb : '\n' ∉ b)
    (hjdn : '\n' ∉ jd (format_message u ts t b)) :
    sentLines jd u ts t b =
      [humanFormat u ts b, jsonTag ++ jd (format_message u ts t b), separatorLine] := by
  unfold sentLines
  rw [splitOnChar_of_not_mem _ _ (newline_not_mem_humanFormat u ts b hu hts hb)]
  rw [splitOnChar_of_not_mem _ _ (fun hmem => by
    rcases List.mem_append.mp hmem with h | h
    · exact absurd h (by decide)
    · exact hjdn h)]
  rfl

lemma jsonLineCount_append (l1 l2 : List Str) :
    jsonLineCount (l1 ++ l2) = jsonLineCount l1 + jsonLineCount l2 := by
  simp [jsonLineCount, List.filter_append]

lemma jsonLineCount_sentLines (jd : MessageData → Str) (u ts : Str) (t : Int) (b : Str)
    (hu : '\n' ∉ u) (hts : '\n' ∉ ts) (hb : '\n' ∉ b)
    (hjdn : '\n' ∉ jd (format_message u ts t b))
    (hjds : pyStrip (jsonTag ++ jd (format_message u ts t b)) =
      jsonTag ++ jd (format_message u ts t b)) :
    jsonLineCount (sentLines jd u ts t b) = 1 := by
  rw [sentLines_eq jd u ts t b hu hts hb hjdn]
  simp [jsonLineCount, List.filter, humanFormat_not_tag, separator_not_tag, hjds,
    isPrefixOf_append_self]

/-! ## Helper lemmas about receiver operation traces -/

lemma applyOp_disp_mono (jp : Str → Option MessageData) (op : ReceiverOp)
    (file : List Str) (st : RecvState) (x : Int) (hx : x ∈ st.displayed_messages) :
    x ∈ (applyOp jp op file st).displayed_messages := by
  cases op with
  | pollNew =>
    simp only [applyOp]
    rw [read_new_messages_eq]
    exact processLines_disp_mono jp _ _ x hx
  | showExisting n =>
    simp only [applyOp]
    exact show_existing_disp_mono jp n file st x hx

lemma pollOutput_fresh (jp : Str → Option MessageData) (op : ReceiverOp)
    (file : List Str) (st : RecvState) (md : MessageData)
    (h : md ∈ pollOutput jp op file st) :
    ∃ id, md.message_id = some id ∧ id ∉ st.displayed_messages ∧
      id ∈ (applyOp jp op file st).displayed_messages := by
  cases op with
  | showExisting n => simp [pollOutput] at h
  | pollNew =>
    simp only [pollOutput] at h
    rw [read_new_messages_eq] at h
    obtain ⟨id, hid, _, hnotin, hin⟩ := processLines_mem_id jp _ _ md h
    refine ⟨id, hid, hnotin, ?_⟩
    simp only [applyOp]
    rw [read_new_messages_eq]
    exact hin

lemma runTrace_avoid (jp : Str → Option MessageData)
    (trace : List (ReceiverOp × List Str)) :
    ∀ (st : RecvState) (x : Int), x ∈ st.displayed_messages →
      ∀ out ∈ runTrace jp trace st, x ∉ msgIds out := by
  induction trace with
  | nil => intro st x _ out hout; simp [runTrace] at hout
  | cons step rest ih =>
    intro st x hx out hout
    obtain ⟨op, file⟩ := step
    rcases List.mem_cons.mp hout with rfl | hout
    · intro hmem
      obtain ⟨md, hmd, hid⟩ := List.mem_filterMap.mp hmem
      obtain ⟨id, hid2, hnotin, _⟩ := pollOutput_fresh jp op file st md hmd
      rw [hid2] at hid
      injection hid with hh
      rw [← hh] at hx
      exact hnotin hx
    · exact ih (applyOp jp op file st) x (applyOp_disp_mono jp op file st x hx) out hout

/-! ## Helper lemmas about the cursor -/

lemma read_pos (jp : Str → Option MessageData) (file : List Str) (st : RecvState) :
    (read_new_messages jp file st).2.last_position = file.length := by
  rw [read_new_messages_eq]

lemma applyOp_pos_bounds (jp : Str → Option MessageData) (op : ReceiverOp)
    (file : List Str) (st : RecvState) (h : st.last_position ≤ file.length) :
    st.last_position ≤ (applyOp jp op file st).last_position ∧
      (applyOp jp op file st).last_position ≤ file.length := by
  cases op with
  | pollNew =>
    simp only [applyOp]
    rw [read_pos]
    exact ⟨h, le_refl _⟩
  | showExisting n =>
    simp only [applyOp]
    rcases show_existing_pos jp n file st with heq | heq <;> rw [heq]
    · exact ⟨le_refl _, h⟩
    · exact ⟨h, le_refl _⟩

lemma chain_le_of_le (a b : Nat) (l : List Nat) (hba : b ≤ a)
    (h : List.Chain (· ≤ ·) a l) : List.Chain (· ≤ ·) b l := by
  cases l with
  | nil => exact List.Chain.nil
  | cons c cs =>
    rw [List.chain_cons] at h ⊢
    exact ⟨le_trans hba h.1, h.2⟩

lemma header_not_tag :
    jsonTag.isPrefixOf (pyStrip "=== Chat Session Started ===".data) = false := by decide

lemma format_message_id (u ts : Str) (t : Int) (b : Str) :
    (format_message u ts t b).message_id = some t := rfl

lemma pairwise_filterMap_ids (sends : List (Int × Str))
    (h : (sends.map Prod.fst).Pairwise (· < ·)) :
    (sends.filterMap (fun p =>
      if (validate_message p.2).1 = true then some (generate_message_id p.1)
      else none)).Pairwise (· < ·) := by
  induction sends with
  | nil => simp
  | cons p rest ih =>
    rw [List.map_cons, List.pairwise_cons] at h
    rw [List.filterMap_cons]
    split
    · exact ih h.2
    · next b heq =>
      have hbp : b = generate_message_id p.1 := by
        by_cases hv : (validate_message p.2).1 = true
        · rw [if_pos hv] at heq
          injection heq with hh
          exact hh.symm
        · rw [if_neg hv] at heq
          exact absurd heq (by simp)
      subst hbp
      rw [List.pairwise_cons]
      refine ⟨?_, ih h.2⟩
      intro y hy
      obtain ⟨q, hq, heq2⟩ := List.mem_filterMap.mp hy
      have hyq : y = generate_message_id q.1 := by
        by_cases hvq : (validate_message q.2).1 = true
        · rw [if_pos hvq] at heq2
          injection heq2 with hh
          exact hh.symm
        · rw [if_neg hvq] at heq2
          exact absurd heq2 (by simp)
      rw [hyq]
      exact h.1 q.1 (List.mem_map_of_mem Prod.fst hq)

lemma processLines_sentBlocks (jp : Str → Option MessageData) (jd : MessageData → Str)
    (u ts : Str) (hu : '\n' ∉ u) (hts : '\n' ∉ ts) :
    ∀ (sends : List (Int × Str)) (disp : List Int),
      (∀ p ∈ sends, '\n' ∉ p.2) →
      (∀ p ∈ sends, pyStrip (jsonTag ++ jd (format_message u ts p.1 p.2)) =
          jsonTag ++ jd (format_message u ts p.1 p.2) ∧
        '\n' ∉ jd (format_message u ts p.1 p.2)) →
      (∀ p ∈ sends, jp (jd (format_message u ts p.1 p.2)) =
        some (format_message u ts p.1 p.2)) →
      (sends.map Prod.fst).Pairwise (· ≠ ·) →
      (∀ p ∈ sends, p.1 ≠ 0) →
      (∀ p ∈ sends, p.1 ∉ disp) →
      (processLines jp (sentBlocks jd u ts sends) disp).1 =
        sends.map (fun p => format_message u ts p.1 p.2) := by
  intro sends
  induction sends with
  | nil => intro disp _ _ _ _ _ _; rfl
  | cons p rest ih =>
    intro disp hb hjd hjp hpw hz hfresh
    obtain ⟨t, b⟩ := p
    have hmem : (t, b) ∈ (t, b) :: rest := List.mem_cons_self _ _
    have hblocks : sentBlocks jd u ts ((t, b) :: rest) =
        sentLines jd u ts t b ++ sentBlocks jd u ts rest := rfl
    rw [hblocks, sentLines_eq jd u ts t b hu hts (hb _ hmem) (hjd _ hmem).2]
    simp only [List.cons_append, List.nil_append]
    rw [processLines_cons_skip jp _ _ disp (humanFormat_not_tag u ts b)]
    have hstrip := (hjd _ hmem).1
    have htag : jsonTag.isPrefixOf
        (pyStrip (jsonTag ++ jd (format_message u ts t b))) = true := by
      rw [hstrip]
      exact isPrefixOf_append_self _ _
    have hjp1 : jp ((pyStrip (jsonTag ++ jd (format_message u ts t b))).drop 6) =
        some (format_message u ts t b) := by
      rw [hstrip, jsonTag_drop]
      exact hjp _ hmem
    rw [processLines_cons_fresh jp _ _ disp (format_message u ts t b) t htag hjp1
      (format_message_id u ts t b) (hz _ hmem) (hfresh _ hmem)]
    rw [processLines_cons_skip jp separatorLine _ (t :: disp) separator_not_tag]
    rw [List.map_cons, List.pairwise_cons] at hpw
    have hfresh2 : ∀ q ∈ rest, q.1 ∉ t :: disp := by
      intro q hq hmem2
      rcases List.mem_cons.mp hmem2 with heq | hmem3
      · exact hpw.1 q.1 (List.mem_map_of_mem Prod.fst hq) heq.symm
      · exact hfresh q (List.mem_cons_of_mem _ hq) hmem3
    rw [ih (t :: disp) (fun q hq => hb q (List.mem_cons_of_mem _ hq))
      (fun q hq => hjd q (List.mem_cons_of_mem _ hq))
      (fun q hq => hjp q (List.mem_cons_of_mem _ hq)) hpw.2
      (fun q hq => hz q (List.mem_cons_of_mem _ hq)) hfresh2]
    simp

/-! ## Claims -/

/-- C1, counterexample: two accepted sends at clock times 1000 ms and 1000 ms
are both assigned the identifier 1000, so the identifiers of accepted messages
are neither strictly increasing nor gapless, refuting the claim that assigned
identifiers are strictly increasing with no gaps and assigned exactly once. -/
theorem c1_counterexample :
    (runSends jdConst uA tsA [(1000, "hi".data), (1000, "yo".data)] initialChatFile).2 =
      [1000, 1000] ∧
    ¬ List.Pairwise (fun a b : Int => a < b) [1000, 1000] ∧
    noGapIncreasing [1000, 1000] = false := by
  decide

/-- C1, amended: the identifier assigned to an accepted message is the send
clock time in milliseconds, so along any sequence of sends whose clock times
strictly increase the identifiers of accepted messages strictly increase; they
are not gapless, and sends within one millisecond collide. -/
theorem c1_amended (jd : MessageData → Str) (u ts : Str) (sends : List (Int × Str))
    (file : List Str) (hclk : (sends.map Prod.fst).Pairwise (· < ·)) :
    ((runSends jd u ts sends file).2).Pairwise (· < ·) := by
  rw [runSends_ids]
  exact pairwise_filterMap_ids sends hclk

/-- C1, witness: the amended claim at a concrete two-send run with strictly
increasing clock times. -/
theorem c1_witness :
    ((runSends jdConst uA tsA [(1000, "hi".data), (2000, "yo".data)]
      initialChatFile).2).Pairwise (· < ·) :=
  c1_amended jdConst uA tsA _ initialChatFile (by decide)

/-- C2, counterexample: two sends carrying the same non-null external id
(both clock 1000 ms, so both `message_id` 1000) both return `True`, and the
stored JSON record count rises by 2, refuting the claim that the second call
is rejected as a duplicate and the count rises by exactly 1. -/
theorem c2_counterexample :
    (send_message jdConst uA tsA 1000 "hi".data initialChatFile).1 = true ∧
    (send_message jdConst uA tsA 1000 "hi".data
      (send_message jdConst uA tsA 1000 "hi".data initialChatFile).2).1 = true ∧
    jsonLineCount (send_message jdConst uA tsA 1000 "hi".data
      (send_message jdConst uA tsA 1000 "hi".data initialChatFile).2).2 =
      jsonLineCount initialChatFile + 2 := by
  decide

/-- C2, amended: the sender performs no deduplication: any two validated
sends — in particular two sends with the same `message_id` — both succeed and
each appends one JSON record, so the stored record count rises by exactly 2
across the pair.  Deduplication happens only in the receiver. -/
theorem c2_amended (jd : MessageData → Str) (u ts : Str) (t1 t2 : Int)
    (b1 b2 : Str) (file : List Str)
    (hv1 : (validate_message b1).1 = true) (hv2 : (validate_message b2).1 = true)
    (hu : '\n' ∉ u) (hts : '\n' ∉ ts) (hb1 : '\n' ∉ b1) (hb2 : '\n' ∉ b2)
    (hjd : ∀ md : MessageData,
      pyStrip (jsonTag ++ jd md) = jsonTag ++ jd md ∧ '\n' ∉ jd md) :
    (send_message jd u ts t1 b1 file).1 = true ∧
    (send_message jd u ts t2 b2 (send_message jd u ts t1 b1 file).2).1 = true ∧
    jsonLineCount (send_message jd u ts t2 b2 (send_message jd u ts t1 b1 file).2).2 =
      jsonLineCount file + 2 := by
  rw [send_message_valid jd u ts t1 b1 file hv1]
  rw [send_message_valid jd u ts t2 b2 _ hv2]
  refine ⟨rfl, rfl, ?_⟩
  rw [jsonLineCount_append, jsonLineCount_append]
  rw [jsonLineCount_sentLines jd u ts t1 b1 hu hts hb1 (hjd _).2 (hjd _).1]
  rw [jsonLineCount_sentLines jd u ts t2 b2 hu hts hb2 (hjd _).2 (hjd _).1]

/-- C2, witness: the amended claim at a concrete pair of identically-timed
sends on the fresh chat file. -/
theorem c2_witness :
    (send_message jdConst uA tsA 1000 "hey".data initialChatFile).1 = true ∧
    (send_message jdConst uA tsA 1000 "you".data
      (send_message jdConst uA tsA 1000 "hey".data initialChatFile).2).1 = true ∧
    jsonLineCount (send_message jdConst uA tsA 1000 "you".data
      (send_message jdConst uA tsA 1000 "hey".data initialChatFile).2).2 =
      jsonLineCount initialChatFile + 2 :=
  c2_amended jdConst uA tsA 1000 1000 "hey".data "you".data initialChatFile
    (by decide) (by decide) (by decide) (by decide) (by decide) (by decide)
    (fun md => by
      show pyStrip (jsonTag ++ "<m>".data) = jsonTag ++ "<m>".data ∧ '\n' ∉ "<m>".data
      decide)

/-- C3, counterexample: the body `spam` is neither empty nor whitespace-only
nor longer than 500 characters, yet validation rejects it (prohibited
content), refuting the claim that validation fails only for empty or
oversized bodies. -/
theorem c3_counterexample :
    pyStrip "spam".data ≠ [] ∧ ("spam".data).length ≤ 500 ∧
    (validate_message "spam".data).1 = false := by
  decide

/-- C3, amended: validation fails exactly when the body is empty or
whitespace-only, or longer than 500 characters, or its lowercase form
contains a prohibited word (`spam` or `test123`). -/
theorem c3_amended (m : Str) :
    (validate_message m).1 = false ↔
      pyStrip m = [] ∨ 500 < m.length ∨
        isSubstr "spam".data (pyLower m) = true ∨
        isSubstr "test123".data (pyLower m) = true := by
  unfold validate_message
  split_ifs with h1 h2 h3
  · simp [h1]
  · simp [h1, h2]
  · simp only [prohibited_words, List.any_cons, List.any_nil, Bool.or_false,
      Bool.or_eq_true] at h3
    constructor
    · intro _
      rcases h3 with h | h
      · exact Or.inr (Or.inr (Or.inl h))
      · exact Or.inr (Or.inr (Or.inr h))
    · intro _
      rfl
  · simp only [prohibited_words, List.any_cons, List.any_nil, Bool.or_false,
      Bool.or_eq_true] at h3
    push_neg at h3
    constructor
    · intro htrue
      exact absurd htrue (by simp)
    · intro hr
      rcases hr with h | h | h | h
      · exact absurd h h1
      · exact absurd h h2
      · exact absurd h h3.1
      · exact absurd h h3.2

/-- C4, counterexample: a record whose parsed message carries no
`message_id` is dropped by `read_new_messages` — the poll returns the empty
batch — refuting the claim that messages with an absent external id are
delivered like any first-seen message. -/
theorem c4_counterexample :
    jpNoId "noid".data = some mdNoId ∧
    (read_new_messages jpNoId fileNoId initReceiver).1 = [] := by
  decide

/-- C4, amended: a message whose `message_id` is absent or falsy is never
returned by `read_new_messages`: every returned message carries a present,
non-zero id. -/
theorem c4_amended (jp : Str → Option MessageData) (file : List Str)
    (st : RecvState) (md : MessageData)
    (h : md ∈ (read_new_messages jp file st).1) :
    ∃ id, md.message_id = some id ∧ id ≠ 0 := by
  rw [read_new_messages_eq] at h
  obtain ⟨id, hid, hz, _, _⟩ := processLines_mem_id jp _ _ md h
  exact ⟨id, hid, hz⟩

/-- C4, witness: the amended claim at a concrete one-record file whose
message carries the truthy id 42. -/
theorem c4_witness : ∃ id, mdOk.message_id = some id ∧ id ≠ 0 :=
  c4_amended jpOk fileOk initReceiver mdOk (by decide)

/-- C5: along any sequence of receiver operations (polls and
`show_existing_messages` calls, each against the file current at that step),
the batches returned by distinct polls carry disjoint message ids: a message
delivered to the subscriber by one poll is never returned by a later poll. -/
theorem c5_no_redelivery (jp : Str → Option MessageData)
    (trace : List (ReceiverOp × List Str)) (st : RecvState) :
    (runTrace jp trace st).Pairwise
      (fun out1 out2 => ∀ id ∈ msgIds out1, id ∉ msgIds out2) := by
  induction trace generalizing st with
  | nil => simp [runTrace]
  | cons step rest ih =>
    obtain ⟨op, file⟩ := step
    rw [runTrace]
    refine List.Pairwise.cons ?_ (ih (applyOp jp op file st))
    intro out hout id hid
    simp only [msgIds] at hid
    obtain ⟨md, hmd, hmid⟩ := List.mem_filterMap.mp hid
    obtain ⟨id2, hid2, _, hin⟩ := pollOutput_fresh jp op file st md hmd
    rw [hid2] at hmid
    injection hmid with hh
    rw [hh] at hin
    exact runTrace_avoid jp rest (applyOp jp op file st) id hin out hout

/-- C6, counterexample: two publishes in the same millisecond (clock 1000 ms)
both succeed, yet a fresh subscriber polling from the beginning receives only
the first message — the second is suppressed by the id-based deduplication —
refuting the claim that exactly those N messages are received. -/
theorem c6_counterexample :
    (runSends jd6 uA tsA [(1000, "hi".data), (1000, "yo".data)] initialChatFile).2 =
      [1000, 1000] ∧
    (read_new_messages jp6
      (runSends jd6 uA tsA [(1000, "hi".data), (1000, "yo".data)] initialChatFile).1
      initReceiver).1 = [md61] ∧
    (read_new_messages jp6
      (runSends jd6 uA tsA [(1000, "hi".data), (1000, "yo".data)] initialChatFile).1
      initReceiver).1 ≠ [md61, md62] := by
  decide

/-- C6, amended: after N successful publishes whose generated message ids are
pairwise distinct and truthy (and whose texts carry no newline, with the JSON
dump/parse round-tripping), a fresh subscriber polling from the beginning
receives exactly those N messages in publish order. -/
theorem c6_amended (jp : Str → Option MessageData) (jd : MessageData → Str)
    (u ts : Str) (sends : List (Int × Str))
    (hu : '\n' ∉ u) (hts : '\n' ∉ ts)
    (hv : ∀ p ∈ sends, (validate_message p.2).1 = true)
    (hb : ∀ p ∈ sends, '\n' ∉ p.2)
    (hjd : ∀ p ∈ sends, pyStrip (jsonTag ++ jd (format_message u ts p.1 p.2)) =
        jsonTag ++ jd (format_message u ts p.1 p.2) ∧
      '\n' ∉ jd (format_message u ts p.1 p.2))
    (hjp : ∀ p ∈ sends, jp (jd (format_message u ts p.1 p.2)) =
      some (format_message u ts p.1 p.2))
    (hpw : (sends.map Prod.fst).Pairwise (· ≠ ·))
    (hz : ∀ p ∈ sends, p.1 ≠ 0) :
    (read_new_messages jp (runSends jd u ts sends initialChatFile).1 initReceiver).1 =
      sends.map (fun p => format_message u ts p.1 p.2) := by
  rw [read_new_messages_eq]
  show (processLines jp (((runSends jd u ts sends initialChatFile).1).drop 0) []).1 = _
  rw [List.drop_zero, runSends_file jd u ts sends hv initialChatFile]
  show (processLines jp ("=== Chat Session Started ===".data :: sentBlocks jd u ts sends)
    []).1 = _
  rw [processLines_cons_skip jp _ _ _ header_not_tag]
  exact processLines_sentBlocks jp jd u ts hu hts sends [] hb hjd hjp hpw hz
    (fun q _ => List.not_mem_nil q.1)

/-- C6, witness: the amended claim at a concrete two-send run with distinct
truthy ids: the fresh subscriber receives both messages in order. -/
theorem c6_witness :
    (read_new_messages jp6
      (runSends jd6 uA tsA [(1000, "hi".data), (2000, "yo".data)] initialChatFile).1
      initReceiver).1 =
      ([(1000, "hi".data), (2000, "yo".data)] : List (Int × Str)).map
        (fun p => format_message uA tsA p.1 p.2) :=
  c6_amended jp6 jd6 uA tsA [(1000, "hi".data), (2000, "yo".data)]
    (by decide) (by decide) (by decide) (by decide) (by decide) (by decide)
    (by decide) (by decide)

/-- C7: along any sequence of receiver operations in which the chat file only
grows (lengths form a chain above the starting cursor), the cursor never
decreases at any step and never exceeds the end of the file current at that
step. -/
theorem c7_cursor_bounds (jp : Str → Option MessageData)
    (trace : List (ReceiverOp × List Str)) (st : RecvState)
    (h : List.Chain (· ≤ ·) st.last_position (trace.map fun step => step.2.length)) :
    cursorBounds jp st trace := by
  induction trace generalizing st with
  | nil => trivial
  | cons step rest ih =>
    obtain ⟨op, file⟩ := step
    rw [List.map_cons, List.chain_cons] at h
    have hb := applyOp_pos_bounds jp op file st h.1
    exact ⟨hb, ih (applyOp jp op file st)
      (chain_le_of_le file.length _ _ hb.2 h.2)⟩

/-- C7, witness: the bounds along a concrete poll followed by a
`show_existing_messages` call against a grown file. -/
theorem c7_witness :
    cursorBounds jpOk initReceiver
      [(ReceiverOp.pollNew, initialChatFile),
        (ReceiverOp.showExisting 10, initialChatFile ++ fileOk)] :=
  c7_cursor_bounds jpOk
    [(ReceiverOp.pollNew, initialChatFile),
      (ReceiverOp.showExisting 10, initialChatFile ++ fileOk)] initReceiver
    (List.Chain.cons (by decide) (List.Chain.cons (by decide) List.Chain.nil))

/-- C8, counterexample: a fully populated message renders as
`💬 [10:00:00] bob: hey`, which differs from the form `[time] author: body`
built from the message fields — the code prepends an emoji and shows only the
second space-separated part of the timestamp — refuting the claim that the
rendering is exactly `[time] author: body`. -/
theorem c8_counterexample :
    format_message_display mdOk = some "💬 [10:00:00] bob: hey".data ∧
    some (specRender mdOk) ≠ format_message_display mdOk := by
  decide

/-- C8, amended: every message whose fields are present and whose timestamp
splits at a space is rendered as `💬 [t] author: body`, where `t` is the
second space-separated field of the timestamp and author and body come from
the message fields. -/
theorem c8_amended (md : MessageData) (ts tp un b : Str)
    (hts : md.timestamp = some ts)
    (htp : (splitOnChar ' ' ts)[1]? = some tp)
    (hun : md.username = some un)
    (hb : md.message = some b) :
    format_message_display md =
      some ("💬 [".data ++ tp ++ "] ".data ++ un ++ ": ".data ++ b) := by
  simp only [format_message_display, hts, hun, hb, Option.getD_some, htp]

/-- C8, witness: the amended rendering at a concrete message. -/
theorem c8_witness :
    format_message_display mdOk =
      some ("💬 [".data ++ "10:00:00".data ++ "] ".data ++ "bob".data ++
        ": ".data ++ "hey".data) :=
  c8_amended mdOk tsA "10:00:00".data "bob".data "hey".data rfl (by decide) rfl rfl

/-- C9: the receiver parsers are total over malformed input: every message
returned by `read_new_messages` or `show_existing_messages` comes from a line
that carries the `JSON: ` tag and whose remainder parses, so a line failing
either test contributes nothing to any returned batch and raises no error. -/
theorem c9_malformed_skipped (jp : Str → Option MessageData) (file : List Str)
    (st : RecvState) (count : Nat) :
    (∀ md ∈ (read_new_messages jp file st).1,
      ∃ l ∈ file, jsonTag.isPrefixOf (pyStrip l) = true ∧
        jp ((pyStrip l).drop 6) = some md) ∧
    (∀ md ∈ (show_existing_messages jp count file st).1,
      ∃ l ∈ file, jsonTag.isPrefixOf (pyStrip l) = true ∧
        jp ((pyStrip l).drop 6) = some md) := by
  constructor
  · intro md hmd
    rw [read_new_messages_eq] at hmd
    obtain ⟨l, hl, hgood⟩ := processLines_mem_good jp _ _ md hmd
    exact ⟨l, List.drop_subset _ _ hl, hgood⟩
  · intro md hmd
    exact extractMessages_mem jp file md (show_existing_mem jp count file st md hmd)

/-- C9, witness: the well-formed-origin property at a concrete one-record
file. -/
theorem c9_witness :
    ∃ l ∈ fileOk, jsonTag.isPrefixOf (pyStrip l) = true ∧
      jpOk ((pyStrip l).drop 6) = some mdOk :=
  (c9_malformed_skipped jpOk fileOk initReceiver 10).1 mdOk (by decide)

/-- C10: a well-formed message whose timestamp string contains no space makes
`format_message_display` raise `IndexError` (embedded as `none`), while every
message whose timestamp contains at least one space is formatted normally. -/
theorem c10_index_error :
    format_message_display mdNoSpace = none ∧
    ∀ (md : MessageData) (ts : Str), md.timestamp = some ts → ' ' ∈ ts →
      (format_message_display md).isSome = true := by
  constructor
  · decide
  · intro md ts hts hsp
    have hlen := splitOnChar_length_ge_two ' ' ts hsp
    simp only [format_message_display, hts, Option.getD_some]
    cases hsplit : (splitOnChar ' ' ts)[1]? with
    | none =>
      rw [List.getElem?_eq_getElem (by omega)] at hsplit
      exact absurd hsplit (by simp)
    | some tp => simp

/-- C10, witness: the normal-return half at a concrete message whose
timestamp contains a space. -/
theorem c10_witness : (format_message_display mdOk).isSome = true :=
  (c10_index_error).2 mdOk tsA rfl (by decide)

end ChatSpec
